import Mathlib

/-!
# Verification of the @oxog/mask masking pipeline

A shallow embedding of the strategy engine (`src/strategies.ts`), the output
format engine, the error classes, the plugin kernel (`src/kernel.ts`) and the
tree traverser (`src/traverser.ts`), together with theorems settling the
frozen claims about them.

Modelling conventions:
* JavaScript strings are sequences of UTF-16 code units; they are modelled as
  `List Char` (`Str` below).
* JavaScript numbers that may be `NaN` are modelled as `Option Int`
  (respectively `Option ℚ`), with `none` playing the role of `NaN`.
  `parseFloat` results are modelled as exact rationals; the special value
  `Infinity` (only producible by `parseFloat` on inputs such as
  "Infinity") is not modelled.
* Thrown exceptions are modelled with `Except`.
-/

namespace Mask

/-- JavaScript strings, modelled as lists of characters. -/
abbrev Str := List Char

/-- Coerce a Lean string literal to the `Str` model. -/
def str (s : String) : Str := s.data

/-- The digit test of JavaScript (regexp d, and the digits accepted by
parseInt/parseFloat): the ASCII characters 0-9. -/
def isDigitJS (c : Char) : Bool := 48 ≤ c.toNat && c.toNat ≤ 57

/-- The ASCII part of JavaScript whitespace (string-trimming in parseInt and
parseFloat, regexp s in the format engine): space, tab, LF, VT, FF, CR. -/
def jsIsSpace (c : Char) : Bool :=
  c.toNat = 32 || c.toNat = 9 || c.toNat = 10 || c.toNat = 11 ||
  c.toNat = 12 || c.toNat = 13

/-- Numeric value of a string of decimal digits (most significant first). -/
def natOfDigits (ds : Str) : Nat :=
  ds.foldl (fun a c => 10 * a + (c.toNat - 48)) 0

/-- JavaScript parseInt(s, 10): skip leading whitespace, read an optional
sign, then a maximal (possibly empty) run of decimal digits; an empty run
yields NaN (modelled as none). -/
def parseIntJS (s : Str) : Option Int :=
  let t := s.dropWhile jsIsSpace
  let sgn : Int := if t.head? = some '-' then -1 else 1
  let u := if t.head? = some '-' ∨ t.head? = some '+' then t.tail else t
  let ds := u.takeWhile isDigitJS
  if ds = [] then none else some (sgn * (natOfDigits ds : Int))

/-- JavaScript parseFloat: skip leading whitespace, read an optional sign,
an integer digit run, an optional fraction after a decimal point, and an
optional exponent (consumed only when at least one exponent digit follows);
NaN (none) when no digit was read.  Values are exact rationals. -/
def parseFloatJS (s : Str) : Option ℚ :=
  let t := s.dropWhile jsIsSpace
  let (sgn, u) : ℚ × Str :=
    match t with
    | '-' :: r => (-1, r)
    | '+' :: r => (1, r)
    | _ => (1, t)
  let ip := u.takeWhile isDigitJS
  let u1 := u.dropWhile isDigitJS
  let (fp, u2) : Str × Str :=
    match u1 with
    | '.' :: r => (r.takeWhile isDigitJS, r.dropWhile isDigitJS)
    | _ => ([], u1)
  if ip.isEmpty && fp.isEmpty then none
  else
    let mantissa : ℚ :=
      (natOfDigits ip : ℚ) + (natOfDigits fp : ℚ) / (10 : ℚ) ^ fp.length
    let expVal : Int :=
      match u2 with
      | 'e' :: r | 'E' :: r =>
          match r with
          | '-' :: r2 =>
              let eds := r2.takeWhile isDigitJS
              if eds.isEmpty then 0 else -(natOfDigits eds : Int)
          | '+' :: r2 =>
              let eds := r2.takeWhile isDigitJS
              if eds.isEmpty then 0 else (natOfDigits eds : Int)
          | _ =>
              let eds := r.takeWhile isDigitJS
              if eds.isEmpty then 0 else (natOfDigits eds : Int)
      | _ => 0
    some (sgn * mantissa * (10 : ℚ) ^ expVal)

/-- Decimal rendering of a natural number (used to build strategy strings
such as "first:3" from an integer). -/
def natDec (n : Nat) : Str :=
  if h : n < 10 then [Char.ofNat (48 + n)]
  else
    have : n / 10 < n := Nat.div_lt_self (by omega) (by omega)
    natDec (n / 10) ++ [Char.ofNat (48 + n % 10)]

/-- Decimal rendering of an integer. -/
def intDec (n : Int) : Str :=
  if n < 0 then '-' :: natDec (-n).toNat else natDec n.toNat

theorem toNat_ofNat_digit (k : Nat) (h : k < 10) :
    (Char.ofNat (48 + k)).toNat = 48 + k := by
  interval_cases k <;> decide

theorem isDigitJS_ofNat_digit (k : Nat) (h : k < 10) :
    isDigitJS (Char.ofNat (48 + k)) = true := by
  interval_cases k <;> decide

theorem natDec_ne_nil (n : Nat) : natDec n ≠ [] := by
  rw [natDec]
  split
  · simp
  · simp

theorem natDec_all_digits (n : Nat) : ∀ c ∈ natDec n, isDigitJS c = true := by
  induction n using Nat.strong_induction_on with
  | _ n ih =>
    rw [natDec]
    split
    · intro c hc
      simp only [List.mem_singleton] at hc
      subst hc
      exact isDigitJS_ofNat_digit n (by omega)
    · intro c hc
      rcases List.mem_append.mp hc with h1 | h2
      · exact ih (n / 10) (Nat.div_lt_self (by omega) (by omega)) c h1
      · simp only [List.mem_singleton] at h2
        subst h2
        exact isDigitJS_ofNat_digit (n % 10) (Nat.mod_lt _ (by omega))

theorem foldl_digits_append (a : Nat) (xs ys : Str) :
    (xs ++ ys).foldl (fun a c => 10 * a + (c.toNat - 48)) a =
      ys.foldl (fun a c => 10 * a + (c.toNat - 48))
        (xs.foldl (fun a c => 10 * a + (c.toNat - 48)) a) := by
  exact List.foldl_append _ _ _ _

theorem foldl_natDec (n : Nat) : ∀ a : Nat,
    (natDec n).foldl (fun a c => 10 * a + (c.toNat - 48)) a =
      a * 10 ^ (natDec n).length + n := by
  induction n using Nat.strong_induction_on with
  | _ n ih =>
    intro a
    rw [natDec]
    split
    · rename_i hlt
      simp only [List.foldl_cons, List.foldl_nil, List.length_singleton]
      rw [toNat_ofNat_digit n hlt, pow_one]
      omega
    · rename_i h
      have hlt : n / 10 < n := Nat.div_lt_self (by omega) (by omega)
      rw [foldl_digits_append, ih (n / 10) hlt a]
      simp only [List.foldl_cons, List.foldl_nil, List.length_append,
        List.length_singleton]
      rw [toNat_ofNat_digit (n % 10) (Nat.mod_lt _ (by omega))]
      have h10 : 10 * (a * 10 ^ (natDec (n / 10)).length + n / 10) +
          (48 + n % 10 - 48) =
          a * 10 ^ ((natDec (n / 10)).length + 1) + (10 * (n / 10) + n % 10) := by
        ring_nf
        omega
      rw [h10]
      omega

theorem natOfDigits_natDec (n : Nat) : natOfDigits (natDec n) = n := by
  have := foldl_natDec n 0
  simpa [natOfDigits] using this

theorem takeWhile_all (p : Char → Bool) (l : Str) (h : ∀ c ∈ l, p c = true) :
    l.takeWhile p = l := by
  induction l with
  | nil => rfl
  | cons c r ihl =>
    simp only [List.takeWhile_cons]
    rw [h c (List.mem_cons_self _ _)]
    simp [ihl fun x hx => h x (List.mem_cons_of_mem _ hx)]

theorem exists_head_natDec (n : Nat) :
    ∃ c r, natDec n = c :: r ∧ isDigitJS c = true := by
  cases hd : natDec n with
  | nil => exact absurd hd (natDec_ne_nil n)
  | cons c r =>
    exact ⟨c, r, rfl, natDec_all_digits n c (hd ▸ List.mem_cons_self _ _)⟩

theorem parseIntJS_pos_digits (l : Str) (hne : l ≠ [])
    (hall : ∀ c ∈ l, isDigitJS c = true) :
    parseIntJS l = some (natOfDigits l : Int) := by
  obtain ⟨c, r, hd⟩ : ∃ c r, l = c :: r := by
    cases l with
    | nil => exact absurd rfl hne
    | cons c r => exact ⟨c, r, rfl⟩
  have hdig : isDigitJS c = true := hall c (hd ▸ List.mem_cons_self _ _)
  have hdigN : 48 ≤ c.toNat ∧ c.toNat ≤ 57 := by
    simpa [isDigitJS] using hdig
  have hspace : jsIsSpace c = false := by
    simp only [jsIsSpace]
    simp only [Bool.or_eq_false_iff, decide_eq_false_iff_not]
    omega
  have hdrop : l.dropWhile jsIsSpace = l := by
    rw [hd, List.dropWhile_cons, hspace]
    simp
  have hminus : ¬(c = '-') := by
    intro hc
    rw [hc] at hdigN
    simp at hdigN
  have hplus : ¬(c = '+') := by
    intro hc
    rw [hc] at hdigN
    simp at hdigN
  have htake : l.takeWhile isDigitJS = l := takeWhile_all _ _ hall
  subst hd
  rw [parseIntJS]
  simp only [hdrop, List.head?_cons, List.tail_cons, Option.some.injEq]
  simp [hminus, hplus, htake, hne]

theorem parseIntJS_neg_digits (l : Str) (hne : l ≠ [])
    (hall : ∀ c ∈ l, isDigitJS c = true) :
    parseIntJS ('-' :: l) = some (-(natOfDigits l : Int)) := by
  have hdrop : ('-' :: l).dropWhile jsIsSpace = '-' :: l := by
    rw [List.dropWhile_cons]
    simp [jsIsSpace]
  have htake : l.takeWhile isDigitJS = l := takeWhile_all _ _ hall
  rw [parseIntJS]
  simp only [hdrop, List.head?_cons, List.tail_cons]
  simp [htake, hne]

theorem parseIntJS_natDec (n : Nat) : parseIntJS (natDec n) = some (n : Int) := by
  rw [parseIntJS_pos_digits (natDec n) (natDec_ne_nil n) (natDec_all_digits n),
    natOfDigits_natDec]

theorem parseIntJS_intDec (n : Int) : parseIntJS (intDec n) = some n := by
  rw [intDec]
  split
  · rename_i hneg
    rw [parseIntJS_neg_digits (natDec (-n).toNat) (natDec_ne_nil _)
      (natDec_all_digits _), natOfDigits_natDec]
    congr 1
    omega
  · rename_i hpos
    rw [parseIntJS_natDec n.toNat]
    congr 1
    omega

/-! ## Error classes (`src/errors.ts`)

Each error class of the source becomes a constructor carrying the data the
class constructor receives; `errName` and `errCode` give the `name` and
`code` fields each class sets. -/

inductive MaskErr where
  | invalidValue (message : String)
  | invalidStrategy (strategy : Str)
  | invalidFormat (format : Str)
  | pluginErr (message pluginName : String) (dependency : Option String)
  | pluginNotFound (pluginName : String)
  | invalidFieldPath (path : Str)
  | circularReference (path : Str)
  | maskerNotFound (type : String)
  | pluginRegistration (message pluginName : String)
  | pluginInit (message pluginName : String) (cause : Option MaskErr)
  | pluginDependency (message pluginName dependency : String)

/-- The `name` field set by each error class constructor. -/
def errName : MaskErr → String
  | .invalidValue _ => "InvalidValueError"
  | .invalidStrategy _ => "InvalidStrategyError"
  | .invalidFormat _ => "InvalidFormatError"
  | .pluginErr _ _ _ => "PluginError"
  | .pluginNotFound _ => "PluginNotFoundError"
  | .invalidFieldPath _ => "InvalidFieldPathError"
  | .circularReference _ => "CircularReferenceError"
  | .maskerNotFound _ => "MaskerNotFoundError"
  | .pluginRegistration _ _ => "PluginRegistrationError"
  | .pluginInit _ _ _ => "PluginInitError"
  | .pluginDependency _ _ _ => "PluginDependencyError"

/-- The machine-readable `code` field set by each error class. -/
def errCode : MaskErr → String
  | .invalidValue _ => "INVALID_VALUE"
  | .invalidStrategy _ => "INVALID_STRATEGY"
  | .invalidFormat _ => "INVALID_FORMAT"
  | .pluginErr _ _ _ => "PLUGIN_ERROR"
  | .pluginNotFound _ => "PLUGIN_NOT_FOUND"
  | .invalidFieldPath _ => "INVALID_FIELD_PATH"
  | .circularReference _ => "CIRCULAR_REFERENCE"
  | .maskerNotFound _ => "MASKER_NOT_FOUND"
  | .pluginRegistration _ _ => "PLUGIN_REGISTRATION_ERROR"
  | .pluginInit _ _ _ => "PLUGIN_INIT_ERROR"
  | .pluginDependency _ _ _ => "PLUGIN_DEPENDENCY_ERROR"

/-- The `message` field of each error (used when `registerPlugin` re-wraps an
install failure as a `PluginInitError` containing the cause's message). -/
def errMessage : MaskErr → String
  | .invalidValue m => m
  | .invalidStrategy s => "Invalid masking strategy: " ++ s.asString
  | .invalidFormat f => "Invalid masking format: " ++ f.asString
  | .pluginErr m _ _ => m
  | .pluginNotFound p => "Plugin not found: " ++ p
  | .invalidFieldPath p => "Invalid field path: " ++ p.asString
  | .circularReference p => "Circular reference detected at path: " ++ p.asString
  | .maskerNotFound t => "Masker not found for type: " ++ t
  | .pluginRegistration m _ => m
  | .pluginInit m _ _ => m
  | .pluginDependency m _ _ => m

/-! ## Strategy engine (`src/strategies.ts`)

`repeatJS` is `repeat` from `src/utils/string.ts`.  The handlers of the
`strategies` record become one definition each; the record key written
`partial` in the source is rendered here as `strategyRatio` (that word is
not usable as a Lean identifier in this development).  JavaScript `NaN`
arising from `parseInt`/`parseFloat` on malformed suffixes is the `none`
case; on `NaN` both `substring(0, NaN)` and `repeat(char, NaN)` produce the
empty string, so each handler returns `[]` there. -/

/-- `repeat(char, count)` from `src/utils/string.ts`: empty for
non-positive counts, otherwise the string repeated `count` times. -/
def repeatJS (char : Str) (count : Int) : Str :=
  if count ≤ 0 then [] else (List.replicate count.toNat char).flatten

/-- `s.split(':')[0]`: the characters before the first colon. -/
def seg0 (s : Str) : Str := s.takeWhile (· != ':')

/-- `s.split(':')[1]`: the characters between the first and second colon;
`none` when the string has no colon (the JS index is `undefined`). -/
def seg1? (s : Str) : Option Str :=
  match s.dropWhile (· != ':') with
  | _ :: r => some (r.takeWhile (· != ':'))
  | [] => none

/-- `strategy.split(':')[1] || '0'` (used by `isValidStrategy` and
`getVisibleCount`): a missing or empty segment is replaced by "0". -/
def seg1OrZero (s : Str) : Str :=
  match seg1? s with
  | none => str ("0")
  | some [] => str ("0")
  | some t => t

/-- `parseInt(strategy.split(':')[1], 10)` as used by the handlers: a missing
segment (`parseInt(undefined, 10)`) is `NaN`. -/
def parseIntSeg (s : Str) : Option Int :=
  match seg1? s with
  | none => none
  | some t => parseIntJS t

/-- `parseFloat(strategy.split(':')[1])` as used by the ratio handler. -/
def parseFloatSeg (s : Str) : Option ℚ :=
  match seg1? s with
  | none => none
  | some t => parseFloatJS t

/-- `strategies.full`. -/
def strategyFull (value char : Str) : Str := repeatJS char value.length

/-- `strategies.middle`. -/
def strategyMiddle (value char : Str) : Str :=
  if value.length ≤ 2 then repeatJS char value.length
  else value.take 1 ++ repeatJS char ((value.length : Int) - 2) ++
    value.drop (value.length - 1)

/-- `strategies.first`. -/
def strategyFirst (value strategy char : Str) : Str :=
  match parseIntSeg strategy with
  | none => []
  | some n =>
    if n ≤ 0 then repeatJS char value.length
    else if (value.length : Int) ≤ n then value
    else value.take n.toNat ++ repeatJS char ((value.length : Int) - n)

/-- `strategies.last`. -/
def strategyLast (value strategy char : Str) : Str :=
  match parseIntSeg strategy with
  | none => []
  | some n =>
    if n ≤ 0 then repeatJS char value.length
    else if (value.length : Int) ≤ n then value
    else repeatJS char ((value.length : Int) - n) ++
      value.drop (value.length - n.toNat)

/-- The handler the source spells `strategies.partial`. -/
def strategyRatio (value strategy char : Str) : Str :=
  match parseFloatSeg strategy with
  | none => []
  | some q =>
    if q ≤ 0 then repeatJS char value.length
    else if 1 ≤ q then value
    else
      let visible : Int := ⌊(value.length : ℚ) * q⌋
      value.take visible.toNat ++ repeatJS char ((value.length : Int) - visible)

/-- `strategy.split(':')[0] || strategy`: the handler-lookup key. -/
def strategyName (strategy : Str) : Str :=
  if seg0 strategy = [] then strategy else seg0 strategy

/-- `applyStrategy(value, strategy, char)`: empty values are returned
untouched before any validation; otherwise the handler registered under the
strategy's name is applied, and an unknown name throws
`InvalidStrategyError`.  (Lookup models the own keys of the `strategies`
record literal; inherited `Object.prototype` members are out of scope.) -/
def applyStrategy (value strategy char : Str) : Except MaskErr Str :=
  if value.length = 0 then .ok value
  else
    let name := strategyName strategy
    if name = str ("full") then .ok (strategyFull value char)
    else if name = str ("middle") then .ok (strategyMiddle value char)
    else if name = str ("first") then .ok (strategyFirst value strategy char)
    else if name = str ("last") then .ok (strategyLast value strategy char)
    else if name = str ("partial") then .ok (strategyRatio value strategy char)
    else .error (.invalidStrategy strategy)

/-- `isValidStrategy(strategy)`. -/
def isValidStrategy (strategy : Str) : Bool :=
  if strategy = str ("full") ∨ strategy = str ("middle") then true
  else if (str ("first:")).isPrefixOf strategy then
    match parseIntJS (seg1OrZero strategy) with
    | none => false
    | some n => decide (0 ≤ n)
  else if (str ("last:")).isPrefixOf strategy then
    match parseIntJS (seg1OrZero strategy) with
    | none => false
    | some n => decide (0 ≤ n)
  else if (str ("partial:")).isPrefixOf strategy then
    match parseFloatJS (seg1OrZero strategy) with
    | none => false
    | some q => decide (0 ≤ q ∧ q ≤ 1)
  else false

/-- `getVisibleCount(value, strategy)`: the number of characters the strategy
leaves visible; `none` models a `NaN` result (malformed numeric suffix). -/
def getVisibleCount (value strategy : Str) : Option Int :=
  if value.length = 0 then some 0
  else if strategy = str ("full") then some 0
  else if strategy = str ("middle") then some (min 2 (value.length : Int))
  else if strategy = str ("first:0") then some 0
  else if strategy = str ("last:0") then some 0
  else if strategy = str ("partial:0") then some 0
  else if (str ("first:")).isPrefixOf strategy then
    (parseIntJS (seg1OrZero strategy)).map (fun n => min n (value.length : Int))
  else if (str ("last:")).isPrefixOf strategy then
    (parseIntJS (seg1OrZero strategy)).map (fun n => min n (value.length : Int))
  else if (str ("partial:")).isPrefixOf strategy then
    (parseFloatJS (seg1OrZero strategy)).map (fun q => ⌊(value.length : ℚ) * q⌋)
  else some 0

/-- `getMaskedCount(value, strategy)`. -/
def getMaskedCount (value strategy : Str) : Option Int :=
  if value.length = 0 then some 0
  else (getVisibleCount value strategy).map (fun k => (value.length : Int) - k)

example : applyStrategy (str ("ABCDEFGHIJ")) (str ("last:4")) (str ("*")) =
    .ok (str ("******GHIJ")) := rfl

example : applyStrategy (str ("ABCDEFGHIJ")) (str ("middle")) (str ("*")) =
    .ok (str ("A********J")) := rfl

theorem intDec_no_colon (n : Int) : ∀ c ∈ intDec n, (c != ':') = true := by
  intro c hc
  rw [intDec] at hc
  have hdig : isDigitJS c = true ∨ c = '-' := by
    split at hc
    · rcases List.mem_cons.mp hc with h | h
      · right; exact h
      · left; exact natDec_all_digits _ c h
    · left; exact natDec_all_digits _ c hc
  rcases hdig with h | h
  · simp only [bne_iff_ne, ne_eq]
    intro he
    subst he
    exact absurd h (by decide)
  · subst h
    decide

theorem parseIntSeg_first_intDec (N : Int) :
    parseIntSeg (str ("first:") ++ intDec N) = some N := by
  rw [parseIntSeg]
  have h1 : seg1? (str ("first:") ++ intDec N) =
      some ((intDec N).takeWhile (· != ':')) := rfl
  rw [h1, takeWhile_all _ _ (intDec_no_colon N)]
  exact parseIntJS_intDec N

/-- C3. The claim that `applyStrategy` throws an invalid-strategy error for
every strategy string rejected by `isValidStrategy` is false:
"first:-1" is rejected by the predicate, yet `applyStrategy` silently
masks the whole value instead of throwing. -/
theorem c3_invalid_strategy_counterexample :
    isValidStrategy (str ("first:-1")) = false ∧
      applyStrategy (str ("AB")) (str ("first:-1")) (str ("*")) =
        .ok (str ("**")) := ⟨rfl, rfl⟩

/-- C3 (amended). `applyStrategy` does not reliably reject
`isValidStrategy`-rejected strategies: whenever the value is empty, or the
strategy's name segment (the part before the first colon, or the whole
string when that part is empty) is one of the `strategies` record's own
keys full / middle / first / last / partial, it silently returns a result
instead of throwing — this covers every rejected strategy with a
recognised name, such as "first:-1" or "full:junk", and empty values
bypass validation entirely.  (For other names the source's lookup also
consults inherited `Object.prototype` members, e.g. a truthy `toString`,
so even an unrecognised name need not throw; that dispatch path is outside
this model, which is why no converse is stated here.) -/
theorem c3_recognised_name_never_throws (value strategy char : Str)
    (h : value.length = 0 ∨
      strategyName strategy ∈ ([str ("full"), str ("middle"), str ("first"),
        str ("last"), str ("partial")] : List Str)) :
    ∃ r, applyStrategy value strategy char = .ok r := by
  rw [applyStrategy]
  by_cases hv : value.length = 0
  · rw [if_pos hv]
    exact ⟨value, rfl⟩
  · rw [if_neg hv]
    rcases h with h | h
    · exact absurd h hv
    · simp only [List.mem_cons, List.mem_singleton, List.not_mem_nil,
        or_false] at h
      rcases h with h | h | h | h | h
      · exact ⟨strategyFull value char, by rw [h, if_pos rfl]⟩
      · exact ⟨strategyMiddle value char,
          by rw [h, if_neg (by decide), if_pos rfl]⟩
      · exact ⟨strategyFirst value strategy char,
          by rw [h, if_neg (by decide), if_neg (by decide), if_pos rfl]⟩
      · exact ⟨strategyLast value strategy char,
          by rw [h, if_neg (by decide), if_neg (by decide),
            if_neg (by decide), if_pos rfl]⟩
      · exact ⟨strategyRatio value strategy char,
          by rw [h, if_neg (by decide), if_neg (by decide),
            if_neg (by decide), if_neg (by decide), if_pos rfl]⟩

/-- Witness for C3 (amended) at the rejected strategy "first:-1" with a
recognised name segment. -/
theorem c3_recognised_name_never_throws_witness :
    ((str ("AB")).length = 0 ∨
      strategyName (str ("first:-1")) ∈ ([str ("full"), str ("middle"),
        str ("first"), str ("last"), str ("partial")] : List Str)) ∧
    (∃ r, applyStrategy (str ("AB")) (str ("first:-1")) (str ("*")) =
      .ok r) :=
  ⟨by decide, c3_recognised_name_never_throws (str ("AB")) (str ("first:-1"))
    (str ("*")) (by decide)⟩

/-- C6. For every value, integer N and mask string c, the strategy
"first:" ++ N keeps the first N characters and masks the remainder with c;
N ≤ 0 masks everything, N ≥ length returns the value unchanged; in
particular "ABCDEFGHIJ" under "first:3" with '*' gives "ABC*******". -/
theorem c6_first_strategy (value : Str) (N : Int) (char : Str) :
    applyStrategy value (str ("first:") ++ intDec N) char =
      .ok (if N ≤ 0 then repeatJS char value.length
        else if (value.length : Int) ≤ N then value
        else value.take N.toNat ++ repeatJS char ((value.length : Int) - N)) ∧
    applyStrategy (str ("ABCDEFGHIJ")) (str ("first:3")) (str ("*")) =
      .ok (str ("ABC*******")) := by
  refine ⟨?_, rfl⟩
  rw [applyStrategy]
  by_cases hv : value.length = 0
  · rw [if_pos hv]
    have hnil : value = [] := List.length_eq_zero.mp hv
    subst hnil
    split_ifs with hN hL
    · simp [repeatJS]
    · rfl
    · exfalso
      simp only [List.length_nil, Nat.cast_zero] at hL
      omega
  · rw [if_neg hv]
    have hname : strategyName (str ("first:") ++ intDec N) = str ("first") := rfl
    rw [hname]
    have hfirst : strategyFirst value (str ("first:") ++ intDec N) char =
        (if N ≤ 0 then repeatJS char value.length
          else if (value.length : Int) ≤ N then value
          else value.take N.toNat ++ repeatJS char ((value.length : Int) - N)) := by
      rw [strategyFirst, parseIntSeg_first_intDec]
    simp only [show (str ("first") = str ("full")) = False by simp [str],
      show (str ("first") = str ("middle")) = False by simp [str],
      if_false, if_true, eq_self_iff_true, hfirst]

/-- C8. For every value and every strategy accepted by `isValidStrategy`,
the visible-character count and the masked-character count are defined (not
NaN) and sum to the length of the value. -/
theorem c8_counts_sum (value strategy : Str)
    (hvalid : isValidStrategy strategy = true) :
    ∃ k m : Int, getVisibleCount value strategy = some k ∧
      getMaskedCount value strategy = some m ∧
      k + m = (value.length : Int) := by
  by_cases hv : value.length = 0
  · refine ⟨0, 0, ?_, ?_, by simp [hv]⟩
    · rw [getVisibleCount, if_pos hv]
    · rw [getMaskedCount, if_pos hv]
  · have hsome : ∃ k : Int, getVisibleCount value strategy = some k := by
      rw [getVisibleCount, if_neg hv]
      split_ifs with h1 h2 h3 h4 h5 h6 h7 h8
      · exact ⟨_, rfl⟩
      · exact ⟨_, rfl⟩
      · exact ⟨_, rfl⟩
      · exact ⟨_, rfl⟩
      · exact ⟨_, rfl⟩
      · rw [isValidStrategy, if_neg (by tauto), if_pos h6] at hvalid
        cases hp : parseIntJS (seg1OrZero strategy) with
        | none => rw [hp] at hvalid; simp at hvalid
        | some n => exact ⟨_, rfl⟩
      · rw [isValidStrategy, if_neg (by tauto), if_neg h6, if_pos h7] at hvalid
        cases hp : parseIntJS (seg1OrZero strategy) with
        | none => rw [hp] at hvalid; simp at hvalid
        | some n => exact ⟨_, rfl⟩
      · rw [isValidStrategy, if_neg (by tauto), if_neg h6, if_neg h7,
          if_pos h8] at hvalid
        cases hp : parseFloatJS (seg1OrZero strategy) with
        | none => rw [hp] at hvalid; simp at hvalid
        | some q => exact ⟨_, rfl⟩
      · exact ⟨_, rfl⟩
    obtain ⟨k, hk⟩ := hsome
    refine ⟨k, (value.length : Int) - k, hk, ?_, by ring⟩
    rw [getMaskedCount, if_neg hv, hk]
    rfl

/-- Witness for C8 at a concrete valid strategy and value. -/
theorem c8_counts_sum_witness :
    isValidStrategy (str ("middle")) = true ∧
      (∃ k m : Int, getVisibleCount (str ("abc")) (str ("middle")) = some k ∧
        getMaskedCount (str ("abc")) (str ("middle")) = some m ∧
        k + m = ((str ("abc")).length : Int)) :=
  ⟨rfl, c8_counts_sum (str ("abc")) (str ("middle")) rfl⟩

/-! ## Format engine (`src/formats.ts`)

The three handlers of the `formats` record.  The JavaScript regexp classes
`\s` / `\D` are modelled by `jsIsSpace` / `isDigitJS` (ASCII range). -/

/-- Chunking loop worker; the first argument is loop fuel (one unit per
chunk, always sufficient since each chunk consumes at least one character). -/
def chunksGo : Nat → Str → List Str
  | _, [] => []
  | 0, _ :: _ => []
  | fuel + 1, l => l.take 4 :: chunksGo fuel (l.drop 4)

/-- Split a string into successive chunks of at most 4 characters (the
card-grouping loop, and the regexp `.{1,4}` applied globally). -/
def chunksOf4 (l : Str) : List Str := chunksGo l.length l

/-- `Array.prototype.join(sep)`. -/
def joinSep (sep : Str) : List Str → Str
  | [] => []
  | [x] => x
  | x :: rest => x ++ sep ++ joinSep sep rest

/-- The `phone` branch of `formats.display`: the anchored regexp
`(\+ then 1-4 digits)(digits)` against the whole value, with a
10-digit-grouping fallback and finally the value unchanged. -/
def formatPhoneDisplay (value : Str) : Str :=
  let digits := value.filter isDigitJS
  let plusCase : Option Str :=
    if value.contains '+' then
      match value with
      | '+' :: rest =>
        if (∀ c ∈ rest, isDigitJS c = true) ∧ 2 ≤ rest.length then
          let ccLen := min 4 (rest.length - 1)
          let number := rest.drop ccLen
          if 10 ≤ number.length then
            some (('+' :: rest.take ccLen) ++ str (" ") ++ number.take 3 ++
              str (" ") ++ (number.drop 3).take 3 ++ str (" ") ++
              (number.drop 6).take 4)
          else none
        else none
      | _ => none
    else none
  match plusCase with
  | some r => r
  | none =>
    if 10 ≤ digits.length then
      str ("(") ++ digits.take 3 ++ str (") ") ++ (digits.drop 3).take 3 ++
        str ("-") ++ (digits.drop 6).take 4
    else value

/-- `formats.display`. -/
def formatDisplay (value type : Str) : Str :=
  if type = str ("card") then joinSep (str (" ")) (chunksOf4 value)
  else if type = str ("phone") then formatPhoneDisplay value
  else if type = str ("iban") then
    let cleaned := value.filter (fun c => !jsIsSpace c)
    if cleaned = [] then value else joinSep (str (" ")) (chunksOf4 cleaned)
  else value

/-- `formats.compact`: strip all whitespace. -/
def formatCompact (value : Str) : Str := value.filter (fun c => !jsIsSpace c)

/-- `formats.log`: a fixed placeholder carrying only the type tag. -/
def formatLog (type : Str) : Str := str ("[REDACTED:") ++ type ++ str ("]")

/-- `applyFormat(value, type, format)`: dispatch on the format key, throwing
`InvalidFormatError` for an unknown format. -/
def applyFormat (value type format : Str) : Except MaskErr Str :=
  if format = str ("display") then .ok (formatDisplay value type)
  else if format = str ("compact") then .ok (formatCompact value)
  else if format = str ("log") then .ok (formatLog type)
  else .error (.invalidFormat format)

/-- `isValidFormat(format)`. -/
def isValidFormat (format : Str) : Bool :=
  format = str ("display") || format = str ("compact") || format = str ("log")

example : applyFormat (str ("************0366")) (str ("card"))
    (str ("display")) = .ok (str ("**** **** **** 0366")) := rfl

example : applyFormat (str ("+90*******67")) (str ("phone"))
    (str ("display")) = .ok (str ("+90*******67")) := rfl

/-- C7. For every masked value and every type tag, the `log` format discards
the value entirely and returns the placeholder "[REDACTED:<type>]". -/
theorem c7_log_format (value type : Str) :
    applyFormat value type (str ("log")) =
      .ok (str ("[REDACTED:") ++ type ++ str ("]")) := rfl

/-! ## Plugin kernel (`src/kernel.ts`)

`Map` objects become insertion-ordered association lists (`set` overwrites
in place or appends, `delete` removes the entry).  A plugin's `install`
procedure is modelled as a straight-line sequence of `registerMasker` calls
optionally followed by a throw; masker functions themselves are inert
tokens (`Nat`) since the kernel stores them without calling them.  An
`onInit` hook either returns synchronously, throws synchronously, or
returns a promise that settles with the recorded outcome; `Promise.all`
rejects with the first rejection in list order (the single-failure cases
the claims are about are order-independent).  The `initializationPromise`
memoisation field only matters for overlapping asynchronous calls and is
not modelled: each `initializeKernel` call runs to completion.  Calls made
to plugins' `onError` hooks are returned as an event list. -/

/-- `Map.prototype.get`. -/
def lookupA {α : Type} (l : List (String × α)) (k : String) : Option α :=
  (l.find? (fun pr => pr.1 == k)).map (fun pr => pr.2)

/-- `Map.prototype.set`: overwrite in place, else append. -/
def setA {α : Type} (l : List (String × α)) (k : String) (v : α) :
    List (String × α) :=
  if (l.find? (fun pr => pr.1 == k)).isSome then
    l.map (fun pr => if pr.1 == k then (k, v) else pr)
  else l ++ [(k, v)]

/-- `Map.prototype.delete`. -/
def delA {α : Type} (l : List (String × α)) (k : String) : List (String × α) :=
  l.filter (fun pr => pr.1 != k)

/-- Outcome of a plugin's `onInit` hook. -/
inductive InitBehavior where
  | ret
  | throws (e : MaskErr)
  | promise (r : Except MaskErr Unit)

/-- A plugin's `install` procedure: `registerMasker` calls then an optional
throw. -/
structure InstallSpec where
  registers : List (String × Nat)
  failure : Option MaskErr

/-- A plugin record (`MaskPlugin`); `install` is always a function here, so
the `typeof plugin.install` check of the source cannot fire.  `hasOnError`
records whether the optional `onError` hook is present. -/
structure KPlugin where
  name : String
  version : String
  dependencies : Option (List String)
  install : InstallSpec
  onInit : Option InitBehavior
  hasOnError : Bool

/-- The kernel's mutable state: plugin registry, masker registry and the
initialized flag. -/
structure KState where
  plugins : List (String × KPlugin)
  maskers : List (String × Nat)
  initialized : Bool

/-- `MaskKernel.registerMasker` (the `typeof masker` check cannot fire in
the model). -/
def registerMasker (s : KState) (type : String) (fn : Nat) :
    Except MaskErr Unit × KState :=
  if type = "" then
    (.error (.pluginErr ("Masker type cannot be empty") ("kernel") none), s)
  else (.ok (), { s with maskers := setA s.maskers type fn })

/-- Run the `registerMasker` calls of an install procedure in order; a throw
aborts the remainder. -/
def runRegisters : List (String × Nat) → KState → Except MaskErr Unit × KState
  | [], s => (.ok (), s)
  | (t, fn) :: rest, s =>
    match registerMasker s t fn with
    | (.ok _, s1) => runRegisters rest s1
    | (.error e, s1) => (.error e, s1)

/-- Run an install procedure: the registrations then the optional throw. -/
def runInstall (spec : InstallSpec) (s : KState) :
    Except MaskErr Unit × KState :=
  match runRegisters spec.registers s with
  | (.ok _, s1) =>
    match spec.failure with
    | some e => (.error e, s1)
    | none => (.ok (), s1)
  | (.error e, s1) => (.error e, s1)

/-- The first dependency whose name is not in the plugin registry (the
`for dep of plugin.dependencies` loop). -/
def firstMissingDep (plugins : List (String × KPlugin)) :
    Option (List String) → Option String
  | none => none
  | some deps => deps.find? (fun d => (lookupA plugins d).isNone)

/-- `MaskKernel.registerPlugin`: validation, duplicate check, dependency
check, store, install with rollback-and-rewrap on failure. -/
def registerPlugin (s : KState) (p : KPlugin) : Except MaskErr Unit × KState :=
  if p.name = "" then
    (.error (.pluginRegistration ("Plugin must have a name") ("unknown")), s)
  else if p.version = "" then
    (.error (.pluginRegistration ("Plugin must have a version") p.name), s)
  else if (lookupA s.plugins p.name).isSome then
    (.error (.pluginRegistration
      ("Plugin \"" ++ p.name ++ "\" is already registered") p.name), s)
  else
    match firstMissingDep s.plugins p.dependencies with
    | some d =>
      (.error (.pluginErr ("Missing dependency: " ++ d) p.name (some d)), s)
    | none =>
      let s1 := { s with plugins := setA s.plugins p.name p }
      match runInstall p.install s1 with
      | (.ok _, s2) => (.ok (), { s2 with initialized := false })
      | (.error e, s2) =>
        (.error (.pluginInit
          ("Failed to install plugin \"" ++ p.name ++ "\": " ++ errMessage e)
          p.name (some e)),
         { s2 with plugins := delA s2.plugins p.name })

/-- `Promise.all` over the collected `onInit` promises: the first rejection
in order, if any. -/
def firstRejection : List (Except MaskErr Unit) → Except MaskErr Unit
  | [] => .ok ()
  | .ok _ :: rest => firstRejection rest
  | .error e :: _ => .error e

/-- The loop of `MaskKernel.doInitialize`: call each plugin's `onInit` in
registration order; a synchronous throw is reported to that plugin's
`onError` (when present) and aborts; promises are collected and awaited
together after the loop.  Returns the `onError` calls made and the
outcome. -/
def doInitializeLoop : List KPlugin → List (Except MaskErr Unit) →
    List (String × MaskErr) × Except MaskErr Unit
  | [], proms => ([], firstRejection proms)
  | p :: rest, proms =>
    match p.onInit with
    | none => doInitializeLoop rest proms
    | some .ret => doInitializeLoop rest proms
    | some (.throws e) =>
      ((if p.hasOnError then [(p.name, e)] else []), .error e)
    | some (.promise r) => doInitializeLoop rest (proms ++ [r])

/-- `MaskKernel.doInitialize`. -/
def doInitialize (plugins : List KPlugin) :
    List (String × MaskErr) × Except MaskErr Unit :=
  doInitializeLoop plugins []

/-- `MaskKernel.initialize`: skip when already initialized; otherwise run
`doInitialize`, setting the initialized flag only on success.  Returns the
outcome, the new state, and the `onError` calls made. -/
def initializeKernel (s : KState) :
    Except MaskErr Unit × KState × List (String × MaskErr) :=
  if s.initialized then (.ok (), s, [])
  else
    match doInitialize (s.plugins.map (fun pr => pr.2)) with
    | (log, .ok _) => (.ok (), { s with initialized := true }, log)
    | (log, .error e) => (.error e, { s with initialized := false }, log)

/-- `MaskKernel.isInitialized`. -/
def isInitialized (s : KState) : Bool := s.initialized

theorem delA_setA_absent {α : Type} (l : List (String × α)) (k : String) (v : α)
    (h : lookupA l k = none) : delA (setA l k v) k = l := by
  have hfind : l.find? (fun pr => pr.1 == k) = none := by
    rw [lookupA] at h
    cases hf : l.find? (fun pr => pr.1 == k) with
    | none => rfl
    | some x => rw [hf] at h; simp at h
  rw [setA, hfind]
  simp only [Option.isSome_none, Bool.false_eq_true, if_false]
  rw [delA, List.filter_append]
  have h1 : l.filter (fun pr => pr.1 != k) = l := by
    rw [List.filter_eq_self]
    intro a ha
    have := List.find?_eq_none.mp hfind a ha
    simpa [bne] using this
  have h2 : ([(k, v)] : List (String × α)).filter (fun pr => pr.1 != k) = [] := by
    simp [bne]
  rw [h1, h2, List.append_nil]

theorem runRegisters_ok (ms : List (String × Nat)) (s : KState)
    (h : ∀ pr ∈ ms, pr.1 ≠ "") :
    runRegisters ms s = (.ok (), { s with
      maskers := ms.foldl (fun m pr => setA m pr.1 pr.2) s.maskers }) := by
  induction ms generalizing s with
  | nil => rfl
  | cons hd tl ih =>
    obtain ⟨t, fn⟩ := hd
    rw [runRegisters, registerMasker,
      if_neg (h (t, fn) (List.mem_cons_self _ _))]
    show runRegisters tl { s with maskers := setA s.maskers t fn } = _
    rw [ih _ fun pr hpr => h pr (List.mem_cons_of_mem _ hpr)]
    rfl

/-- C5. The claim that a missing dependency produces a
`PluginDependencyError` is false: the kernel throws the generic
`PluginError` (code "PLUGIN_ERROR"); `PluginDependencyError` (code
"PLUGIN_DEPENDENCY_ERROR") is declared in the error module but never
constructed.  Registering a plugin with an unregistered dependency on an
empty kernel fails with a `PluginError` and leaves the state unchanged. -/
theorem c5_missing_dep_counterexample :
    registerPlugin ⟨[], [], false⟩
        ⟨"p", "1.0.0", some ["missing"], ⟨[], none⟩, none, false⟩ =
      (.error (.pluginErr ("Missing dependency: missing") ("p")
        (some ("missing"))), ⟨[], [], false⟩) ∧
    errCode (.pluginErr ("Missing dependency: missing") ("p")
        (some ("missing"))) = "PLUGIN_ERROR" ∧
    errCode (.pluginErr ("Missing dependency: missing") ("p")
        (some ("missing"))) ≠
      errCode (.pluginDependency ("Missing dependency: missing") ("p")
        ("missing")) :=
  ⟨rfl, rfl, by decide⟩

/-- C5 (amended). For every kernel and every plugin that passes basic
validation (non-empty name and version, name not yet registered) and
declares a dependency not currently registered, `registerPlugin` fails with
a `PluginError` (code "PLUGIN_ERROR") whose message and context name the
first missing dependency — not with the never-used `PluginDependencyError`
— and the kernel state (plugin registry, masker registry, flag) is
unchanged. -/
theorem c5_missing_dep_plugin_error (s : KState) (p : KPlugin) (d : String)
    (hname : p.name ≠ "") (hver : p.version ≠ "")
    (habs : lookupA s.plugins p.name = none)
    (hdep : firstMissingDep s.plugins p.dependencies = some d) :
    registerPlugin s p =
      (.error (.pluginErr ("Missing dependency: " ++ d) p.name (some d)), s) ∧
    errName (.pluginErr ("Missing dependency: " ++ d) p.name (some d)) =
      "PluginError" := by
  refine ⟨?_, rfl⟩
  rw [registerPlugin, if_neg hname, if_neg hver, if_neg (by rw [habs]; simp),
    hdep]

/-- Witness for C5 (amended) on a concrete kernel and plugin. -/
theorem c5_missing_dep_plugin_error_witness :
    registerPlugin ⟨[], [], false⟩
        ⟨"q", "2.0.0", some ["absent"], ⟨[], none⟩, none, false⟩ =
      (.error (.pluginErr ("Missing dependency: absent") ("q")
        (some ("absent"))), ⟨[], [], false⟩) ∧
    errName (.pluginErr ("Missing dependency: absent") ("q")
      (some ("absent"))) = "PluginError" :=
  c5_missing_dep_plugin_error ⟨[], [], false⟩
    ⟨"q", "2.0.0", some ["absent"], ⟨[], none⟩, none, false⟩ ("absent")
    (by decide) (by decide) rfl rfl

/-- C9. When a plugin's install procedure registers maskers and then
throws, the failed `registerPlugin` rolls the plugin registry back to its
previous contents but keeps every masker registered before the throw: the
masker registry is not rolled back. -/
theorem c9_install_failure_keeps_maskers (s : KState) (p : KPlugin)
    (ms : List (String × Nat)) (e : MaskErr)
    (hname : p.name ≠ "") (hver : p.version ≠ "")
    (habs : lookupA s.plugins p.name = none)
    (hdep : firstMissingDep s.plugins p.dependencies = none)
    (hinst : p.install = ⟨ms, some e⟩)
    (htypes : ∀ pr ∈ ms, pr.1 ≠ "") :
    registerPlugin s p =
      (.error (.pluginInit
        ("Failed to install plugin \"" ++ p.name ++ "\": " ++ errMessage e)
        p.name (some e)),
       { s with maskers := ms.foldl (fun m pr => setA m pr.1 pr.2) s.maskers }) := by
  rw [registerPlugin, if_neg hname, if_neg hver, if_neg (by rw [habs]; simp),
    hdep, hinst]
  show (match runInstall ⟨ms, some e⟩
      { s with plugins := setA s.plugins p.name p } with
    | (.ok _, s2) => ((.ok () : Except MaskErr Unit),
        { s2 with initialized := false })
    | (.error e', s2) =>
      (.error (.pluginInit
        ("Failed to install plugin \"" ++ p.name ++ "\": " ++ errMessage e')
        p.name (some e')),
       { s2 with plugins := delA s2.plugins p.name })) = _
  rw [runInstall, runRegisters_ok ms _ htypes]
  have hroll : delA (setA s.plugins p.name p) p.name = s.plugins :=
    delA_setA_absent _ _ _ habs
  simp [hroll]

/-- Witness for C9 on a concrete kernel and a plugin registering one masker
before throwing. -/
theorem c9_install_failure_keeps_maskers_witness :
    registerPlugin ⟨[], [], false⟩
        ⟨"p", "1.0.0", none, ⟨[("email", 7)], some (.invalidValue ("boom"))⟩,
          none, false⟩ =
      (.error (.pluginInit ("Failed to install plugin \"p\": boom") ("p")
        (some (.invalidValue ("boom")))),
       ⟨[], [("email", 7)], false⟩) :=
  (c9_install_failure_keeps_maskers ⟨[], [], false⟩
    ⟨"p", "1.0.0", none, ⟨[("email", 7)], some (.invalidValue ("boom"))⟩,
      none, false⟩ ([("email", 7)]) (.invalidValue ("boom"))
    (by decide) (by decide) rfl rfl rfl
    (by intro pr hpr; simp at hpr; subst hpr; decide))

theorem firstRejection_ok_append (proms rest : List (Except MaskErr Unit))
    (h : ∀ x ∈ proms, x = .ok ()) :
    firstRejection (proms ++ rest) = firstRejection rest := by
  induction proms with
  | nil => rfl
  | cons x tl ih =>
    have hx : x = .ok () := h x (List.mem_cons_self _ _)
    subst hx
    rw [List.cons_append, firstRejection]
    exact ih fun y hy => h y (List.mem_cons_of_mem _ hy)

theorem firstRejection_append_error (proms : List (Except MaskErr Unit))
    (e : MaskErr) (h : firstRejection proms = .error e)
    (rest : List (Except MaskErr Unit)) :
    firstRejection (proms ++ rest) = .error e := by
  induction proms with
  | nil => rw [firstRejection] at h; exact absurd h (by simp)
  | cons x tl ih =>
    cases x with
    | ok u =>
      rw [firstRejection] at h
      rw [List.cons_append, firstRejection]
      exact ih h
    | error e' =>
      rw [firstRejection] at h
      rw [List.cons_append, firstRejection]
      exact h

theorem loop_no_throw_first_err (post : List KPlugin) :
    ∀ (proms : List (Except MaskErr Unit)) (e : MaskErr),
    (∀ q ∈ post, ∀ e', q.onInit ≠ some (.throws e')) →
    firstRejection proms = .error e →
    doInitializeLoop post proms = ([], .error e) := by
  induction post with
  | nil =>
    intro proms e hthrow hfr
    rw [doInitializeLoop, hfr]
  | cons q tl ih =>
    intro proms e hthrow hfr
    rw [doInitializeLoop]
    have htl : ∀ q' ∈ tl, ∀ e', q'.onInit ≠ some (.throws e') :=
      fun q' hq' => hthrow q' (List.mem_cons_of_mem _ hq')
    cases hq : q.onInit with
    | none => exact ih proms e htl hfr
    | some b =>
      cases b with
      | ret => exact ih proms e htl hfr
      | throws e' => exact absurd hq (hthrow q (List.mem_cons_self _ _) e')
      | promise r =>
        exact ih (proms ++ [r]) e htl
          (firstRejection_append_error _ _ hfr [r])

theorem loop_sync_throw (pre : List KPlugin) (p : KPlugin)
    (post : List KPlugin) (e : MaskErr) (hp : p.onInit = some (.throws e)) :
    ∀ (proms : List (Except MaskErr Unit)),
    (∀ q ∈ pre, ∀ e', q.onInit ≠ some (.throws e')) →
    doInitializeLoop (pre ++ p :: post) proms =
      ((if p.hasOnError then [(p.name, e)] else []), .error e) := by
  induction pre with
  | nil =>
    intro proms hpre
    rw [List.nil_append, doInitializeLoop, hp]
  | cons q tl ih =>
    intro proms hpre
    rw [List.cons_append, doInitializeLoop]
    have htl : ∀ q' ∈ tl, ∀ e', q'.onInit ≠ some (.throws e') :=
      fun q' hq' => hpre q' (List.mem_cons_of_mem _ hq')
    cases hq : q.onInit with
    | none => exact ih proms htl
    | some b =>
      cases b with
      | ret => exact ih proms htl
      | throws e' => exact absurd hq (hpre q (List.mem_cons_self _ _) e')
      | promise r => exact ih (proms ++ [r]) htl

theorem loop_async_reject (pre : List KPlugin) (p : KPlugin)
    (post : List KPlugin) (e : MaskErr)
    (hp : p.onInit = some (.promise (.error e))) :
    ∀ (proms : List (Except MaskErr Unit)),
    (∀ q ∈ pre ++ p :: post, ∀ e', q.onInit ≠ some (.throws e')) →
    (∀ q ∈ pre, ∀ r, q.onInit = some (.promise r) → r = .ok ()) →
    (∀ x ∈ proms, x = .ok ()) →
    doInitializeLoop (pre ++ p :: post) proms = ([], .error e) := by
  induction pre with
  | nil =>
    intro proms hnothrow hpreok hproms
    rw [List.nil_append, doInitializeLoop, hp]
    apply loop_no_throw_first_err
    · intro q' hq'
      exact hnothrow q' (List.mem_cons_of_mem _ hq')
    · rw [firstRejection_ok_append proms [.error e] hproms]
      rfl
  | cons q tl ih =>
    intro proms hnothrow hpreok hproms
    rw [List.cons_append, doInitializeLoop]
    have hno : ∀ q' ∈ tl ++ p :: post, ∀ e', q'.onInit ≠ some (.throws e') :=
      fun q' hq' => hnothrow q' (List.mem_cons_of_mem _ hq')
    have hok : ∀ q' ∈ tl, ∀ r, q'.onInit = some (.promise r) → r = .ok () :=
      fun q' hq' => hpreok q' (List.mem_cons_of_mem _ hq')
    cases hq : q.onInit with
    | none => exact ih proms hno hok hproms
    | some b =>
      cases b with
      | ret => exact ih proms hno hok hproms
      | throws e' =>
        exact absurd hq (hnothrow q (List.mem_cons_self _ _) e')
      | promise r =>
        have hr : r = .ok () := hpreok q (List.mem_cons_self _ _) r hq
        subst hr
        refine ih (proms ++ [.ok ()]) hno hok ?_
        intro x hx
        rcases List.mem_append.mp hx with h | h
        · exact hproms x h
        · simpa using h

/-- C4. The claim that a rejected asynchronous `onInit` result is reported
to that plugin's `onError` hook is false: on a kernel holding one plugin
whose `onInit` returns a rejecting promise and which has an `onError` hook,
`initialize` rejects with the error and leaves the kernel uninitialized,
but makes no `onError` call (the hook is only invoked for synchronous
throws). -/
theorem c4_async_reject_counterexample :
    initializeKernel ⟨[("p",
        ⟨"p", "1", none, ⟨[], none⟩,
          some (.promise (.error (.invalidValue ("boom")))), true⟩)],
      [], false⟩ =
      (.error (.invalidValue ("boom")),
       ⟨[("p",
          ⟨"p", "1", none, ⟨[], none⟩,
            some (.promise (.error (.invalidValue ("boom")))), true⟩)],
        [], false⟩, ([] : List (String × MaskErr))) := rfl

/-- C4 (amended). When a plugin's `onInit` throws synchronously (and no
earlier plugin's `onInit` throws), `initialize` reports the error to that
plugin's `onError` hook when present, rejects with the error, and the
kernel stays uninitialized.  When a plugin's `onInit` returns a rejecting
promise (no plugin throws synchronously and every earlier promise
resolves), `initialize` rejects with the error and the kernel stays
uninitialized, but no `onError` hook is called. -/
theorem c4_oninit_failure (s : KState) (pre post : List (String × KPlugin))
    (nm : String) (p : KPlugin) (e : MaskErr)
    (hinit : s.initialized = false)
    (hplug : s.plugins = pre ++ (nm, p) :: post) :
    ((p.onInit = some (.throws e) ∧
        (∀ q ∈ pre.map (fun pr => pr.2), ∀ e', q.onInit ≠ some (.throws e'))) →
      initializeKernel s =
        (.error e, { s with initialized := false },
          if p.hasOnError then [(p.name, e)] else [])) ∧
    ((p.onInit = some (.promise (.error e)) ∧
        (∀ q ∈ (pre ++ (nm, p) :: post).map (fun pr => pr.2), ∀ e',
          q.onInit ≠ some (.throws e')) ∧
        (∀ q ∈ pre.map (fun pr => pr.2), ∀ r,
          q.onInit = some (.promise r) → r = .ok ())) →
      initializeKernel s = (.error e, { s with initialized := false }, [])) := by
  have hmap : s.plugins.map (fun pr => pr.2) =
      pre.map (fun pr => pr.2) ++ p :: post.map (fun pr => pr.2) := by
    rw [hplug, List.map_append, List.map_cons]
  constructor
  · rintro ⟨hp, hpre⟩
    rw [initializeKernel, if_neg (by rw [hinit]; simp), doInitialize, hmap,
      loop_sync_throw _ _ _ _ hp _ hpre]
  · rintro ⟨hp, hno, hok⟩
    have hno' : ∀ q ∈ pre.map (fun pr => pr.2) ++ p ::
        post.map (fun pr => pr.2), ∀ e', q.onInit ≠ some (.throws e') := by
      intro q hq
      apply hno
      rw [List.map_append, List.map_cons]
      exact hq
    rw [initializeKernel, if_neg (by rw [hinit]; simp), doInitialize, hmap,
      loop_async_reject _ _ _ _ hp _ hno' hok (by simp)]

/-- Witness for C4 (amended): both parts applied on concrete single-plugin
kernels. -/
theorem c4_oninit_failure_witness :
    initializeKernel ⟨[("t",
        ⟨"t", "1", none, ⟨[], none⟩,
          some (.throws (.invalidValue ("sync"))), true⟩)], [], false⟩ =
      (.error (.invalidValue ("sync")),
       ⟨[("t",
          ⟨"t", "1", none, ⟨[], none⟩,
            some (.throws (.invalidValue ("sync"))), true⟩)], [], false⟩,
       [("t", .invalidValue ("sync"))]) ∧
    initializeKernel ⟨[("a",
        ⟨"a", "1", none, ⟨[], none⟩,
          some (.promise (.error (.invalidValue ("async")))), true⟩)],
      [], false⟩ =
      (.error (.invalidValue ("async")),
       ⟨[("a",
          ⟨"a", "1", none, ⟨[], none⟩,
            some (.promise (.error (.invalidValue ("async")))), true⟩)],
        [], false⟩, []) := by
  constructor
  · exact (c4_oninit_failure _ [] [] ("t")
      ⟨"t", "1", none, ⟨[], none⟩, some (.throws (.invalidValue ("sync"))),
        true⟩ (.invalidValue ("sync")) rfl rfl).1
      ⟨rfl, by intro q hq; simp at hq⟩
  · exact (c4_oninit_failure _ [] [] ("a")
      ⟨"a", "1", none, ⟨[], none⟩,
        some (.promise (.error (.invalidValue ("async")))), true⟩
      (.invalidValue ("async")) rfl rfl).2
      ⟨rfl, by intro q hq e' hq'; simp at hq; rw [hq] at hq'; simp at hq',
        by intro q hq; simp at hq⟩

/-! ## Tree traverser (`src/traverser.ts`)

JavaScript object/array trees with reference identity are modelled by a heap
(`List HeapNode`) indexed by `Nat` identities; a tree value is either a
primitive or a reference into the heap.  The per-call `WeakSet` of visited
object identities is threaded as a `List Nat` (spreading the context copies
the reference to the same set, so mutations are visible to later siblings;
lazy initialisation of the set is the empty starting set here).  The result
of a traversal is a fresh tree (`TOut`) whose `leaf` nodes carry values
returned as-is — primitives, and original references returned unchanged (a
revisited object, a matched non-string value, a non-`deep` nested object, or
an array when `maskArrays` is `false`).  Recursion is bounded by explicit
fuel: `none` means the fuel ran out, so an input on which every fuel yields
`none` makes the source recurse without bound.  The kernel seen by the
traverser is its dispatch contract only: a masker table consulted by
`executeMask` (`MaskerNotFoundError` for an unregistered type; the
non-string value check cannot fire since only string leaves are
dispatched). -/

/-- A JavaScript value: a primitive, or a reference to a heap node. -/
inductive JSVal where
  | vstr (s : Str)
  | vnum (n : Int)
  | vbool (b : Bool)
  | vnull
  | vundef
  | vref (i : Nat)

/-- A heap node: a plain object (ordered key/value entries, as
`Object.entries` yields them) or an array. -/
inductive HeapNode where
  | obj (entries : List (Str × JSVal))
  | arr (elems : List JSVal)

/-- The heap: node identity is the list index. -/
abbrev Heap := List HeapNode

/-- The result of traversal: a fresh tree whose leaves are values returned
as-is (primitives and original references). -/
inductive TOut where
  | leaf (v : JSVal)
  | obj (entries : List (Str × TOut))
  | arr (elems : List TOut)

/-- `ObjectMaskOptions` as the traverser reads it: the field mapping and the
`deep` / `maskArrays` flags (`none` = property absent). -/
structure TOptions where
  fields : Option (List (Str × Str))
  deep : Option Bool
  maskArrays : Option Bool

/-- The kernel as the traverser sees it: the masker registry behind
`executeMask`. -/
structure TKernel where
  maskers : List (Str × (Str → Except MaskErr Str))

/-- `MaskKernel.executeMask` for a string value: masker lookup and
dispatch. -/
def executeMaskT (k : TKernel) (type value : Str) : Except MaskErr Str :=
  match (k.maskers.find? (fun pr => pr.1 == type)).map (fun pr => pr.2) with
  | none => .error (.maskerNotFound type.asString)
  | some f => f value

/-- `isPrimitive(value)`: everything except object/array references
(including `null` and `undefined`). -/
def isPrimitive : JSVal → Bool
  | .vref _ => false
  | _ => true

/-- `isObject(value)`: a reference to a plain (non-array) object. -/
def isObjectVal (heap : Heap) : JSVal → Bool
  | .vref i =>
    match heap[i]? with
    | some (.obj _) => true
    | _ => false
  | _ => false

/-- `Array.isArray(value)`. -/
def isArrayVal (heap : Heap) : JSVal → Bool
  | .vref i =>
    match heap[i]? with
    | some (.arr _) => true
    | _ => false
  | _ => false

/-- `matchesPath(path, pattern)`: wildcard patterns ending in ".*" match
the prefix itself or any child of it; other patterns match exactly. -/
def matchesPath (path pattern : Str) : Bool :=
  if (str (".*")).isSuffixOf pattern then
    let pre := pattern.take (pattern.length - 2)
    pre.isPrefixOf path && (path == pre || path[pre.length]? == some '.')
  else path == pattern

/-- `findMaskerForField(path, fields)`: a truthy exact entry wins, then the
first key (in insertion order) whose pattern matches the path. -/
def findMaskerForField (path : Str) (fields : Option (List (Str × Str))) :
    Option Str :=
  match fields with
  | none => none
  | some fl =>
    match (fl.find? (fun pr => pr.1 == path)).map (fun pr => pr.2) with
    | some t =>
      if t.isEmpty then (fl.find? (fun pr => matchesPath path pr.1)).map
        (fun pr => pr.2)
      else some t
    | none =>
      (fl.find? (fun pr => matchesPath path pr.1)).map (fun pr => pr.2)

/-- JavaScript truthiness of the `maskerType` lookup result (`undefined`
and the empty string are falsy). -/
def truthyOpt : Option Str → Bool
  | none => false
  | some t => !t.isEmpty

/-- Path extension: `context.currentPath ? currentPath + "." + key : key`. -/
def childPath (path key : Str) : Str :=
  if path = [] then key else path ++ str (".") ++ key

/-- Sequencing of traversal steps: propagate fuel exhaustion and thrown
errors. -/
def obind {α β : Type} (x : Option (Except MaskErr α))
    (f : α → Option (Except MaskErr β)) : Option (Except MaskErr β) :=
  match x with
  | none => none
  | some (.error e) => some (.error e)
  | some (.ok a) => f a

mutual

/-- `traverse(obj, options, context)`, fuel-bounded.  Arguments after the
fuel: heap, kernel, options, current path, visited set, value.  `none`
means the fuel was exhausted. -/
def traverseFuel : Nat → Heap → TKernel → TOptions → Str → List Nat →
    JSVal → Option (Except MaskErr (TOut × List Nat))
  | 0, _, _, _, _, _, _ => none
  | fuel + 1, heap, k, opts, path, visited, v =>
    if isPrimitive v then some (.ok (.leaf v, visited))
    else match v with
    | .vref i =>
      match heap[i]? with
      | some (.arr elems) =>
        -- traverseArray: the maskArrays gate, then the visited check (arrays
        -- are never added to the visited set), then the element loop
        if opts.maskArrays = some false then
          some (.ok (.leaf (.vref i), visited))
        else if i ∈ visited then some (.ok (.leaf (.vref i), visited))
        else
          obind (traverseElemsF fuel heap k opts path visited elems)
            (fun pr => some (.ok (.arr pr.1, pr.2)))
      | some (.obj entries) =>
        -- traverseObject: visited check, mark visited, entry loop
        if i ∈ visited then some (.ok (.leaf (.vref i), visited))
        else
          obind (traverseEntriesF fuel heap k opts path (i :: visited) entries)
            (fun pr => some (.ok (.obj pr.1, pr.2)))
      | none => some (.ok (.leaf (.vref i), visited))
    | .vstr s => some (.ok (.leaf (.vstr s), visited))
    | .vnum n => some (.ok (.leaf (.vnum n), visited))
    | .vbool b => some (.ok (.leaf (.vbool b), visited))
    | .vnull => some (.ok (.leaf .vnull, visited))
    | .vundef => some (.ok (.leaf .vundef, visited))

/-- The element loop of `traverseArray` (elements keep the array's own
path, and the visited set mutations thread left to right). -/
def traverseElemsF : Nat → Heap → TKernel → TOptions → Str → List Nat →
    List JSVal → Option (Except MaskErr (List TOut × List Nat))
  | 0, _, _, _, _, _, _ => none
  | _ + 1, _, _, _, _, visited, [] => some (.ok ([], visited))
  | fuel + 1, heap, k, opts, path, visited, v :: rest =>
    obind (traverseFuel fuel heap k opts path visited v) (fun pr =>
      obind (traverseElemsF fuel heap k opts path pr.2 rest) (fun qr =>
        some (.ok (pr.1 :: qr.1, qr.2))))

/-- The `Object.entries` loop of `traverseObject`: run `traverseEntryStep`
on each value at its extended path, threading the visited set. -/
def traverseEntriesF : Nat → Heap → TKernel → TOptions → Str → List Nat →
    List (Str × JSVal) → Option (Except MaskErr (List (Str × TOut) × List Nat))
  | 0, _, _, _, _, _, _ => none
  | _ + 1, _, _, _, _, visited, [] => some (.ok ([], visited))
  | fuel + 1, heap, k, opts, path, visited, (key, value) :: rest =>
    obind
      (if truthyOpt (findMaskerForField (childPath path key) opts.fields) then
        match value with
        | .vstr s =>
          match executeMaskT k
              ((findMaskerForField (childPath path key)
                opts.fields).getD []) s with
          | .ok m => some (.ok (.leaf (.vstr m), visited))
          | .error e => some (.error e)
        | .vnum n => some (.ok (.leaf (.vnum n), visited))
        | .vbool b => some (.ok (.leaf (.vbool b), visited))
        | .vnull => some (.ok (.leaf .vnull, visited))
        | .vundef => some (.ok (.leaf .vundef, visited))
        | .vref j => some (.ok (.leaf (.vref j), visited))
      else if opts.deep ≠ some false ∧ isObjectVal heap value = true then
        traverseFuel fuel heap k opts (childPath path key) visited value
      else if isArrayVal heap value = true ∧ opts.maskArrays ≠ some false then
        traverseFuel fuel heap k opts (childPath path key) visited value
      else some (.ok (.leaf value, visited)))
      (fun pr =>
        obind (traverseEntriesF fuel heap k opts path pr.2 rest) (fun qr =>
          some (.ok ((key, pr.1) :: qr.1, qr.2))))

end

example : traverseFuel 5 [HeapNode.arr [JSVal.vref 0]] ⟨[]⟩ ⟨none, none, none⟩
    [] [] (.vref 0) = none := rfl

example : traverseFuel 9
    [HeapNode.obj [(str ("a"), .vref 1), (str ("b"), .vref 1)],
     HeapNode.obj [(str ("secret"), .vstr (str ("x@y.com")))]]
    ⟨[(str ("t"), fun _ => .ok (str ("MASKED")))]⟩
    ⟨some [(str ("a.secret"), str ("t")), (str ("b.secret"), str ("t"))],
      none, none⟩
    [] [] (.vref 0) =
    some (.ok (.obj [(str ("a"), .obj [(str ("secret"),
        .leaf (.vstr (str ("MASKED"))))]),
      (str ("b"), .leaf (.vref 1))], [1, 0])) := rfl

/-- C1. The claim that traversal terminates on every self-referencing tree
is the intended behaviour (the source's `traverseArray` even carries a
dead circular-reference check), but the code never adds arrays to the
visited set: on the array that contains itself (`a = []; a[0] = a`) the
traversal recurses without bound — no amount of fuel produces a result,
for every kernel.  (A self-referencing plain object, by contrast, is
truncated at the revisit and terminates.) -/
theorem c1_self_array_unbounded (fuel : Nat) (k : TKernel) :
    traverseFuel fuel [HeapNode.arr [JSVal.vref 0]] k ⟨none, none, none⟩
      [] [] (.vref 0) = none := by
  induction fuel using Nat.strong_induction_on with
  | _ fuel ih =>
    match fuel with
    | 0 => rfl
    | 1 => rfl
    | fuel + 2 =>
      have h := ih fuel (by omega)
      simp [traverseFuel, traverseElemsF, obind, h, isPrimitive]

/-- C10. An object appearing (by reference) at a second position after
having been traversed once is returned as the original reference, unchanged
and unmasked: whenever an object's identity is already in the visited set,
traversal returns the reference itself (first conjunct); concretely, a tree
in which the same object is the value of keys "a" and "b", with the field
mapping naming both "a.secret" and "b.secret", masks the secret only
inside "a" and returns the original object (with unmasked content) at
"b" (second conjunct). -/
theorem c10_shared_reference (fuel : Nat) (heap : Heap) (k : TKernel)
    (opts : TOptions) (path : Str) (visited : List Nat) (i : Nat)
    (entries : List (Str × JSVal))
    (hmem : i ∈ visited) (hnode : heap[i]? = some (.obj entries)) :
    traverseFuel (fuel + 1) heap k opts path visited (.vref i) =
      some (.ok (.leaf (.vref i), visited)) ∧
    traverseFuel 9
      [HeapNode.obj [(str ("a"), .vref 1), (str ("b"), .vref 1)],
       HeapNode.obj [(str ("secret"), .vstr (str ("x@y.com")))]]
      ⟨[(str ("t"), fun _ => .ok (str ("MASKED")))]⟩
      ⟨some [(str ("a.secret"), str ("t")), (str ("b.secret"), str ("t"))],
        none, none⟩
      [] [] (.vref 0) =
      some (.ok (.obj [(str ("a"), .obj [(str ("secret"),
          .leaf (.vstr (str ("MASKED"))))]),
        (str ("b"), .leaf (.vref 1))], [1, 0])) := by
  constructor
  · rw [traverseFuel]
    simp [isPrimitive, hnode, hmem]
  · rfl

/-- Witness for C10 at a concrete revisited object. -/
theorem c10_shared_reference_witness :
    traverseFuel 4 [HeapNode.obj [(str ("x"), .vnull)]] ⟨[]⟩
        ⟨none, none, none⟩ [] [0] (.vref 0) =
      some (.ok (.leaf (.vref 0), [0])) ∧
    traverseFuel 9
      [HeapNode.obj [(str ("a"), .vref 1), (str ("b"), .vref 1)],
       HeapNode.obj [(str ("secret"), .vstr (str ("x@y.com")))]]
      ⟨[(str ("t"), fun _ => .ok (str ("MASKED")))]⟩
      ⟨some [(str ("a.secret"), str ("t")), (str ("b.secret"), str ("t"))],
        none, none⟩
      [] [] (.vref 0) =
      some (.ok (.obj [(str ("a"), .obj [(str ("secret"),
          .leaf (.vstr (str ("MASKED"))))]),
        (str ("b"), .leaf (.vref 1))], [1, 0])) :=
  c10_shared_reference 3 [HeapNode.obj [(str ("x"), .vnull)]] ⟨[]⟩
    ⟨none, none, none⟩ [] [0] 0 [(str ("x"), .vnull)]
    (by simp) rfl

/-! ## Structure preservation (C2)

`Shaped heap k fields path v out` says that `out` is the input subtree `v`
with, at every object level, exactly the input's keys in the input's order,
at every array level exactly the input's length, and leaves either returned
as-is (`leaf` — primitives and whole subtrees returned by original
reference are literally the unchanged input) or a string leaf at a path
whose field-mapping lookup is truthy, replaced by the kernel's masked
value. -/

mutual

inductive Shaped (heap : Heap) (k : TKernel)
    (fields : Option (List (Str × Str))) : Str → JSVal → TOut → Prop where
  | leaf (path : Str) (v : JSVal) : Shaped heap k fields path v (.leaf v)
  | masked (path : Str) (s m t : Str)
      (hfind : findMaskerForField path fields = some t) (ht : t ≠ [])
      (hmask : executeMaskT k t s = .ok m) :
      Shaped heap k fields path (.vstr s) (.leaf (.vstr m))
  | obj (path : Str) (i : Nat) (entries : List (Str × JSVal))
      (outs : List (Str × TOut)) (hnode : heap[i]? = some (.obj entries))
      (hrest : ShapedEntries heap k fields path entries outs) :
      Shaped heap k fields path (.vref i) (.obj outs)
  | arr (path : Str) (i : Nat) (elems : List JSVal) (outs : List TOut)
      (hnode : heap[i]? = some (.arr elems))
      (hrest : ShapedElems heap k fields path elems outs) :
      Shaped heap k fields path (.vref i) (.arr outs)

inductive ShapedEntries (heap : Heap) (k : TKernel)
    (fields : Option (List (Str × Str))) :
    Str → List (Str × JSVal) → List (Str × TOut) → Prop where
  | nil (path : Str) : ShapedEntries heap k fields path [] []
  | cons (path key : Str) (v : JSVal) (out : TOut)
      (rest : List (Str × JSVal)) (outs : List (Str × TOut))
      (hhead : Shaped heap k fields (childPath path key) v out)
      (htail : ShapedEntries heap k fields path rest outs) :
      ShapedEntries heap k fields path ((key, v) :: rest) ((key, out) :: outs)

inductive ShapedElems (heap : Heap) (k : TKernel)
    (fields : Option (List (Str × Str))) :
    Str → List JSVal → List TOut → Prop where
  | nil (path : Str) : ShapedElems heap k fields path [] []
  | cons (path : Str) (v : JSVal) (out : TOut)
      (rest : List JSVal) (outs : List TOut)
      (hhead : Shaped heap k fields path v out)
      (htail : ShapedElems heap k fields path rest outs) :
      ShapedElems heap k fields path (v :: rest) (out :: outs)

end

theorem obind_some_ok {α β : Type} {x : Option (Except MaskErr α)}
    {f : α → Option (Except MaskErr β)} {b : β}
    (h : obind x f = some (.ok b)) :
    ∃ a, x = some (.ok a) ∧ f a = some (.ok b) := by
  match x with
  | none => exact absurd h (by simp [obind])
  | some (.error e) => exact absurd h (by simp [obind])
  | some (.ok a) => exact ⟨a, rfl, h⟩

theorem truthyOpt_iff (o : Option Str) :
    truthyOpt o = true ↔ ∃ t, o = some t ∧ t ≠ [] := by
  cases o with
  | none => simp [truthyOpt]
  | some t => simp [truthyOpt, List.isEmpty_iff]

theorem traverse_shaped (fuel : Nat) :
    (∀ heap k opts path visited v out vis,
      traverseFuel fuel heap k opts path visited v = some (.ok (out, vis)) →
      Shaped heap k opts.fields path v out) ∧
    (∀ heap k opts path visited vs outs vis,
      traverseElemsF fuel heap k opts path visited vs = some (.ok (outs, vis)) →
      ShapedElems heap k opts.fields path vs outs) ∧
    (∀ heap k opts path visited kvs outs vis,
      traverseEntriesF fuel heap k opts path visited kvs =
        some (.ok (outs, vis)) →
      ShapedEntries heap k opts.fields path kvs outs) := by
  induction fuel with
  | zero =>
    refine ⟨?_, ?_, ?_⟩ <;>
      · intro heap k opts path visited a out vis h
        exact absurd h (by simp [traverseFuel, traverseElemsF, traverseEntriesF])
  | succ fuel ih =>
    obtain ⟨ih1, ih2, ih3⟩ := ih
    refine ⟨?_, ?_, ?_⟩
    · intro heap k opts path visited v out vis h
      cases v with
      | vstr s =>
        simp [traverseFuel] at h
        obtain ⟨h1, h2⟩ := h
        subst h1
        exact .leaf path (.vstr s)
      | vnum n =>
        simp [traverseFuel] at h
        obtain ⟨h1, h2⟩ := h
        subst h1
        exact .leaf path (.vnum n)
      | vbool b =>
        simp [traverseFuel] at h
        obtain ⟨h1, h2⟩ := h
        subst h1
        exact .leaf path (.vbool b)
      | vnull =>
        simp [traverseFuel] at h
        obtain ⟨h1, h2⟩ := h
        subst h1
        exact .leaf path .vnull
      | vundef =>
        simp [traverseFuel] at h
        obtain ⟨h1, h2⟩ := h
        subst h1
        exact .leaf path .vundef
      | vref i =>
        rw [traverseFuel] at h
        rw [if_neg (by simp [isPrimitive])] at h
        cases hnode : heap[i]? with
        | none =>
          rw [hnode] at h
          simp only [] at h
          simp at h
          obtain ⟨heq, hveq⟩ := h
          subst heq
          exact .leaf path (.vref i)
        | some node =>
          cases node with
          | arr elems =>
            rw [hnode] at h
            simp only [] at h
            by_cases hma : opts.maskArrays = some false
            · rw [if_pos hma] at h
              simp at h
              obtain ⟨heq, hveq⟩ := h
              subst heq
              exact .leaf path (.vref i)
            · rw [if_neg hma] at h
              by_cases hv : i ∈ visited
              · rw [if_pos hv] at h
                simp at h
                obtain ⟨heq, hveq⟩ := h
                subst heq
                exact .leaf path (.vref i)
              · rw [if_neg hv] at h
                obtain ⟨pr, hel, hout⟩ := obind_some_ok h
                simp at hout
                obtain ⟨heq, hveq⟩ := hout
                subst heq
                exact .arr path i elems pr.1 hnode
                  (ih2 heap k opts path visited elems pr.1 pr.2 hel)
          | obj entries =>
            rw [hnode] at h
            simp only [] at h
            by_cases hv : i ∈ visited
            · rw [if_pos hv] at h
              simp at h
              obtain ⟨heq, hveq⟩ := h
              subst heq
              exact .leaf path (.vref i)
            · rw [if_neg hv] at h
              obtain ⟨pr, hen, hout⟩ := obind_some_ok h
              simp at hout
              obtain ⟨heq, hveq⟩ := hout
              subst heq
              exact .obj path i entries pr.1 hnode
                (ih3 heap k opts path (i :: visited) entries pr.1 pr.2 hen)
    · intro heap k opts path visited vs outs vis h
      cases vs with
      | nil =>
        rw [traverseElemsF] at h
        simp at h
        obtain ⟨heq, hveq⟩ := h
        subst heq
        exact .nil path
      | cons v rest =>
        rw [traverseElemsF] at h
        obtain ⟨pr, hv, h2⟩ := obind_some_ok h
        obtain ⟨qr, hrest, hout⟩ := obind_some_ok h2
        simp at hout
        obtain ⟨heq, hveq⟩ := hout
        subst heq
        exact .cons path v pr.1 rest qr.1
          (ih1 heap k opts path visited v pr.1 pr.2 hv)
          (ih2 heap k opts path pr.2 rest qr.1 qr.2 hrest)
    · intro heap k opts path visited kvs outs vis h
      cases kvs with
      | nil =>
        rw [traverseEntriesF] at h
        simp at h
        obtain ⟨heq, hveq⟩ := h
        subst heq
        exact .nil path
      | cons kv rest =>
        obtain ⟨key, value⟩ := kv
        have hfall : ∀ (w : JSVal) (res : TOut × List Nat),
            (if opts.deep ≠ some false ∧ isObjectVal heap w = true then
                traverseFuel fuel heap k opts (childPath path key) visited w
              else if isArrayVal heap w = true ∧
                  opts.maskArrays ≠ some false then
                traverseFuel fuel heap k opts (childPath path key) visited w
              else some (.ok (.leaf w, visited))) = some (.ok res) →
            Shaped heap k opts.fields (childPath path key) w res.1 := by
          intro w res hres
          by_cases hdeep : opts.deep ≠ some false ∧
              isObjectVal heap w = true
          · rw [if_pos hdeep] at hres
            exact ih1 heap k opts (childPath path key) visited w
              res.1 res.2 hres
          · rw [if_neg hdeep] at hres
            by_cases harr : isArrayVal heap w = true ∧
                opts.maskArrays ≠ some false
            · rw [if_pos harr] at hres
              exact ih1 heap k opts (childPath path key) visited w
                res.1 res.2 hres
            · rw [if_neg harr] at hres
              simp at hres
              subst hres
              exact .leaf _ _
        cases value with
        | vstr s =>
          rw [traverseEntriesF] at h
          obtain ⟨pr, hstep, h2⟩ := obind_some_ok h
          obtain ⟨qr, hrest, hout⟩ := obind_some_ok h2
          simp at hout
          obtain ⟨heq, hveq⟩ := hout
          subst heq
          refine .cons path key (.vstr s) pr.1 rest qr.1 ?_
            (ih3 heap k opts path pr.2 rest qr.1 qr.2 hrest)
          by_cases ht : truthyOpt (findMaskerForField (childPath path key)
              opts.fields) = true
          · rw [if_pos ht] at hstep
            obtain ⟨t, hfind, htne⟩ := (truthyOpt_iff _).mp ht
            rw [hfind] at hstep
            simp only [Option.getD_some] at hstep
            cases hmask : executeMaskT k t s with
            | ok m =>
              rw [hmask] at hstep
              simp at hstep
              subst hstep
              exact .masked (childPath path key) s m t hfind htne hmask
            | error e =>
              rw [hmask] at hstep
              simp at hstep
          · rw [if_neg ht] at hstep
            exact hfall (.vstr s) pr hstep
        | vnum n =>
          rw [traverseEntriesF] at h
          obtain ⟨pr, hstep, h2⟩ := obind_some_ok h
          obtain ⟨qr, hrest, hout⟩ := obind_some_ok h2
          simp at hout
          obtain ⟨heq, hveq⟩ := hout
          subst heq
          refine .cons path key (.vnum n) pr.1 rest qr.1 ?_
            (ih3 heap k opts path pr.2 rest qr.1 qr.2 hrest)
          by_cases ht : truthyOpt (findMaskerForField (childPath path key)
              opts.fields) = true
          · rw [if_pos ht] at hstep
            simp at hstep
            subst hstep
            exact .leaf _ _
          · rw [if_neg ht] at hstep
            exact hfall (.vnum n) pr hstep
        | vbool b =>
          rw [traverseEntriesF] at h
          obtain ⟨pr, hstep, h2⟩ := obind_some_ok h
          obtain ⟨qr, hrest, hout⟩ := obind_some_ok h2
          simp at hout
          obtain ⟨heq, hveq⟩ := hout
          subst heq
          refine .cons path key (.vbool b) pr.1 rest qr.1 ?_
            (ih3 heap k opts path pr.2 rest qr.1 qr.2 hrest)
          by_cases ht : truthyOpt (findMaskerForField (childPath path key)
              opts.fields) = true
          · rw [if_pos ht] at hstep
            simp at hstep
            subst hstep
            exact .leaf _ _
          · rw [if_neg ht] at hstep
            exact hfall (.vbool b) pr hstep
        | vnull =>
          rw [traverseEntriesF] at h
          obtain ⟨pr, hstep, h2⟩ := obind_some_ok h
          obtain ⟨qr, hrest, hout⟩ := obind_some_ok h2
          simp at hout
          obtain ⟨heq, hveq⟩ := hout
          subst heq
          refine .cons path key (.vnull) pr.1 rest qr.1 ?_
            (ih3 heap k opts path pr.2 rest qr.1 qr.2 hrest)
          by_cases ht : truthyOpt (findMaskerForField (childPath path key)
              opts.fields) = true
          · rw [if_pos ht] at hstep
            simp at hstep
            subst hstep
            exact .leaf _ _
          · rw [if_neg ht] at hstep
            exact hfall (.vnull) pr hstep
        | vundef =>
          rw [traverseEntriesF] at h
          obtain ⟨pr, hstep, h2⟩ := obind_some_ok h
          obtain ⟨qr, hrest, hout⟩ := obind_some_ok h2
          simp at hout
          obtain ⟨heq, hveq⟩ := hout
          subst heq
          refine .cons path key (.vundef) pr.1 rest qr.1 ?_
            (ih3 heap k opts path pr.2 rest qr.1 qr.2 hrest)
          by_cases ht : truthyOpt (findMaskerForField (childPath path key)
              opts.fields) = true
          · rw [if_pos ht] at hstep
            simp at hstep
            subst hstep
            exact .leaf _ _
          · rw [if_neg ht] at hstep
            exact hfall (.vundef) pr hstep
        | vref j =>
          rw [traverseEntriesF] at h
          obtain ⟨pr, hstep, h2⟩ := obind_some_ok h
          obtain ⟨qr, hrest, hout⟩ := obind_some_ok h2
          simp at hout
          obtain ⟨heq, hveq⟩ := hout
          subst heq
          refine .cons path key (.vref j) pr.1 rest qr.1 ?_
            (ih3 heap k opts path pr.2 rest qr.1 qr.2 hrest)
          by_cases ht : truthyOpt (findMaskerForField (childPath path key)
              opts.fields) = true
          · rw [if_pos ht] at hstep
            simp at hstep
            subst hstep
            exact .leaf _ _
          · rw [if_neg ht] at hstep
            exact hfall (.vref j) pr hstep

/-- C2. Every tree returned by a successful traversal is structure
preserving: at every object level it has exactly the input's keys, at every
array level the input's length, and the only leaves differing from the
input are string leaves at paths whose field-mapping lookup is truthy,
replaced by the kernel's masked value; all other leaves (including whole
subtrees returned by original reference) are unchanged. -/
theorem c2_structure_preserving (fuel : Nat) (heap : Heap) (k : TKernel)
    (opts : TOptions) (path : Str) (visited : List Nat) (v : JSVal)
    (out : TOut) (vis : List Nat)
    (h : traverseFuel fuel heap k opts path visited v = some (.ok (out, vis))) :
    Shaped heap k opts.fields path v out :=
  (traverse_shaped fuel).1 heap k opts path visited v out vis h

/-- Witness for C2: the end-to-end example tree `{a: {b: "x@y.com"}}` with
field mapping `{"a.b": "email"}`. -/
theorem c2_structure_preserving_witness :
    Shaped [HeapNode.obj [(str ("a"), .vref 1)],
        HeapNode.obj [(str ("b"), .vstr (str ("x@y.com")))]]
      ⟨[(str ("email"), fun _ => .ok (str ("x***m")))]⟩
      (some [(str ("a.b"), str ("email"))]) [] (.vref 0)
      (.obj [(str ("a"), .obj [(str ("b"),
        .leaf (.vstr (str ("x***m"))))])]) :=
  c2_structure_preserving 9
    [HeapNode.obj [(str ("a"), .vref 1)],
     HeapNode.obj [(str ("b"), .vstr (str ("x@y.com")))]]
    ⟨[(str ("email"), fun _ => .ok (str ("x***m")))]⟩
    ⟨some [(str ("a.b"), str ("email"))], none, none⟩ [] [] (.vref 0)
    (.obj [(str ("a"), .obj [(str ("b"), .leaf (.vstr (str ("x***m"))))])])
    [1, 0] rfl

end Mask
